import Mathlib

/-!
A verification development for the prompt-shield detection engine.

The definitions below are a shallow embedding of the Go sources:

* `detection-engine/internal/detector/circuit_breaker.go`
* `detection-engine/internal/detector/model_registry.go`
* `detection-engine/internal/detector/pipeline_with_fallback.go`
* the LLM detector file (`llm_detector.go`): `Detect`, `parseAnalysis`,
  `rot13`, `tryROT13Decode`.

Modelling conventions:

* Go `float64` values are modelled as exact rationals (ℚ).  All score
  constants of the program (0.5, 0.6, 0.8, 0.3) are exactly representable
  in binary floating point, and no claim hinges on rounding of parsed
  decimals, so this abstraction is faithful for the properties at stake.
  `strconv.ParseFloat` range overflow (values rounding to ±Inf) is modelled
  by failing for values ≥ 2^1024.
* Go `time.Duration` and `time.Time` are modelled as integer nanosecond
  counts.  `time.Duration` is a 64-bit signed integer in Go, and its
  multiplication wraps; this is modelled explicitly by `i64wrap` at the one
  place the circuit breaker multiplies durations.
* Go `int` counters are modelled as ℤ (increment-only counters would need
  2^63 sequential recorded calls to wrap, which no finite deployment
  performs; the overflow-sensitive duration arithmetic, whose operands come
  straight from configuration, is the place where wrapping is modelled).
* Network calls cannot be embedded; the outcome of each remote call is an
  explicit oracle argument (a list of per-call results), and the control
  flow around those outcomes is translated from the source.
* Go strings handled by `regexp`/`strings` functions are modelled as
  `List Char` (Go's regexp engine and `range` work rune-wise); the one
  function with byte-level behaviour (`rot13`, which indexes a rune buffer
  with byte offsets) is modelled over UTF-8 byte lists.
-/

namespace PromptShield

/-! ## 64-bit integer wrapping -/

/-- Two's-complement wrap of an integer into `[-2^63, 2^63)`, the behaviour
of Go's `int64`/`time.Duration` arithmetic. -/
def i64wrap (x : ℤ) : ℤ := (x + 2 ^ 63) % 2 ^ 64 - 2 ^ 63

/-- `x` is representable as a 64-bit signed integer. -/
def inI64 (x : ℤ) : Prop := -(2 ^ 63) ≤ x ∧ x < 2 ^ 63

instance (x : ℤ) : Decidable (inI64 x) := by unfold inI64; infer_instance

/-! ## Circuit breaker (`circuit_breaker.go`)

`CircuitState` is the three-valued state enumeration; `CircuitBreaker`
carries exactly the mutable fields of the Go struct (the `name` and the
metrics collector are irrelevant to the state machine and omitted; the
mutex serialises access and vanishes in the sequential model). -/

inductive CircuitState where
  | closed
  | opened
  | halfOpen
deriving DecidableEq, Repr

structure CircuitBreakerConfig where
  failureThreshold : ℤ
  successThreshold : ℤ
  timeout : ℤ
  maxTimeout : ℤ
deriving DecidableEq, Repr

structure CircuitBreaker where
  failureThreshold : ℤ
  successThreshold : ℤ
  timeout : ℤ
  maxTimeout : ℤ
  consecutiveFailures : ℤ
  consecutiveSuccesses : ℤ
  lastFailureTime : ℤ
  state : CircuitState
  totalRequests : ℤ
  successfulRequests : ℤ
  failedRequests : ℤ
deriving DecidableEq, Repr

/-- `NewCircuitBreaker`: zero-valued counters, CLOSED state, zero time. -/
def NewCircuitBreaker (config : CircuitBreakerConfig) : CircuitBreaker :=
  { failureThreshold := config.failureThreshold
    successThreshold := config.successThreshold
    timeout := config.timeout
    maxTimeout := config.maxTimeout
    consecutiveFailures := 0
    consecutiveSuccesses := 0
    lastFailureTime := 0
    state := .closed
    totalRequests := 0
    successfulRequests := 0
    failedRequests := 0 }

/-- `allowRequest` at wall-clock time `now`: returns the updated breaker and
whether the request is admitted.  In OPEN, admission after the backoff
elapses (`now − lastFailureTime > timeout`) transitions to HALF_OPEN and
zeroes `consecutiveSuccesses`. -/
def allowRequest (cb : CircuitBreaker) (now : ℤ) : CircuitBreaker × Bool :=
  match cb.state with
  | .closed => (cb, true)
  | .opened =>
      if cb.timeout < now - cb.lastFailureTime then
        ({ cb with state := .halfOpen, consecutiveSuccesses := 0 }, true)
      else
        (cb, false)
  | .halfOpen => (cb, true)

/-- `recordResult` at wall-clock time `now`.  On failure, when the new
consecutive-failure count reaches `failureThreshold`, the circuit opens and
the backoff becomes `timeout * consecutiveFailures` (64-bit wrapping
multiplication, as in Go), capped at `maxTimeout`. -/
def recordResult (cb : CircuitBreaker) (now : ℤ) (success : Bool) :
    CircuitBreaker :=
  if success then
    let cb := { cb with
      consecutiveFailures := 0
      consecutiveSuccesses := cb.consecutiveSuccesses + 1
      successfulRequests := cb.successfulRequests + 1 }
    if cb.state = .halfOpen ∧ cb.successThreshold ≤ cb.consecutiveSuccesses then
      { cb with state := .closed, consecutiveSuccesses := 0 }
    else cb
  else
    let cb := { cb with
      consecutiveSuccesses := 0
      consecutiveFailures := cb.consecutiveFailures + 1
      failedRequests := cb.failedRequests + 1
      lastFailureTime := now }
    if cb.failureThreshold ≤ cb.consecutiveFailures then
      let newTimeout := i64wrap (cb.timeout * cb.consecutiveFailures)
      { cb with state := .opened
                timeout := if cb.maxTimeout < newTimeout then cb.maxTimeout
                           else newTimeout }
    else cb

/-- `Reset`: back to CLOSED with zeroed consecutive counters; the backoff
keeps its current value (the original is not stored). -/
def resetCB (cb : CircuitBreaker) : CircuitBreaker :=
  { cb with state := .closed, consecutiveFailures := 0,
            consecutiveSuccesses := 0 }

/-- `Call` executed with the admission check at time `tAllow`, the guarded
function producing `fnOk` (`true` = nil error), and the failure timestamp
taken at `tRecord`.  Returns the new breaker, whether the circuit-open
sentinel was returned, and whether the guarded function was invoked. -/
def callCB (cb : CircuitBreaker) (tAllow tRecord : ℤ) (fnOk : Bool) :
    CircuitBreaker × Bool × Bool :=
  let (cb1, admitted) := allowRequest cb tAllow
  if admitted then
    let cb2 := { cb1 with totalRequests := cb1.totalRequests + 1 }
    (recordResult cb2 tRecord fnOk, false, true)
  else
    (cb1, true, false)

/-- `n` consecutive successful results recorded on `cb`. -/
def recordSuccesses (cb : CircuitBreaker) (now : ℤ) : ℕ → CircuitBreaker
  | 0 => cb
  | n + 1 => recordSuccesses (recordResult cb now true) now n

/-- One externally driven breaker event: an admission check, a recorded
call result, or a manual reset. -/
inductive CBOp where
  | allow (now : ℤ)
  | record (now : ℤ) (success : Bool)
  | reset
deriving Repr

def stepCB (cb : CircuitBreaker) : CBOp → CircuitBreaker
  | .allow now => (allowRequest cb now).1
  | .record now success => recordResult cb now success
  | .reset => resetCB cb

def runCB (cb : CircuitBreaker) (ops : List CBOp) : CircuitBreaker :=
  ops.foldl stepCB cb

/-- Per-step check that every piece of arithmetic performed by the step
stays inside 64-bit signed range, so that Go's machine arithmetic agrees
with the unbounded model (and the wrapping multiplication is the identity). -/
def stepNoOverflow (cb : CircuitBreaker) : CBOp → Bool
  | .allow now => decide (inI64 (now - cb.lastFailureTime))
  | .record _ success =>
      if success then
        decide (inI64 (cb.consecutiveSuccesses + 1)) &&
          decide (inI64 (cb.successfulRequests + 1))
      else
        decide (inI64 (cb.consecutiveFailures + 1)) &&
          decide (inI64 (cb.failedRequests + 1)) &&
          (if cb.failureThreshold ≤ cb.consecutiveFailures + 1 then
            decide (inI64 (cb.timeout * (cb.consecutiveFailures + 1)))
          else true)
  | .reset => true

def runNoOverflow (cb : CircuitBreaker) (ops : List CBOp) : Bool :=
  (ops.foldl (fun p op => (stepCB p.1 op, p.2 && stepNoOverflow p.1 op))
    (cb, true)).2

/-! ## Model registry (`model_registry.go`)

`ModelConfig` is reduced to the fields the registry operations read or
write (`Name`, `Priority`, `Enabled`); the remaining descriptor fields
(provider, URL, credential variable, latency, cost, breaker configuration)
are never consulted by `refreshEnabledModels` or the mutation operations
and are omitted from the ordering model. -/

structure ModelConfig where
  name : String
  priority : ℤ
  enabled : Bool
deriving DecidableEq, Repr

/-- The inner loop of `refreshEnabledModels`'s sort for a fixed outer index
`i`: walk the positions after `i` with the current `a[i]` as register `x`;
whenever `a[i].Priority > a[j].Priority` the two entries are swapped (the
old register is left at position `j`, the smaller element becomes the new
register).  Returns the final `a[i]` together with the contents of the
positions after `i`. -/
def sortInner (x : ModelConfig) : List ModelConfig →
    ModelConfig × List ModelConfig
  | [] => (x, [])
  | y :: ys =>
      if y.priority < x.priority then
        let (m, zs) := sortInner y ys
        (m, x :: zs)
      else
        let (m, zs) := sortInner x ys
        (m, y :: zs)

/-- The doubly nested swap loop of `refreshEnabledModels`.  The outer loop
runs once per element, so it is expressed with a fuel argument equal to the
list length (`sortOuter l.length l`). -/
def sortOuter : ℕ → List ModelConfig → List ModelConfig
  | 0, _ => []
  | _ + 1, [] => []
  | n + 1, x :: xs =>
      let (m, zs) := sortInner x xs
      m :: sortOuter n zs

/-- `refreshEnabledModels`: filter the enabled descriptors in insertion
order, then sort them by ascending priority with the nested swap loop. -/
def refreshEnabledModels (models : List ModelConfig) : List ModelConfig :=
  let enabled := models.filter (·.enabled)
  sortOuter enabled.length enabled

structure ModelRegistry where
  models : List ModelConfig
  enabledModels : List ModelConfig
deriving Repr

/-- `LoadFromConfig`. -/
def loadFromConfig (_r : ModelRegistry) (configs : List ModelConfig) :
    ModelRegistry :=
  { models := configs, enabledModels := refreshEnabledModels configs }

/-- Apply `f` to the first descriptor named `name` (the registry loops stop
at the first match); `none` when the name is absent. -/
def updateFirst (name : String) (f : ModelConfig → ModelConfig) :
    List ModelConfig → Option (List ModelConfig)
  | [] => none
  | m :: rest =>
      if m.name = name then some (f m :: rest)
      else (updateFirst name f rest).map (m :: ·)

/-- `EnableModel` (a missing name leaves the registry unchanged and returns
an error, which the model drops). -/
def enableModel (r : ModelRegistry) (name : String) : ModelRegistry :=
  match updateFirst name (fun m => { m with enabled := true }) r.models with
  | some ms => { models := ms, enabledModels := refreshEnabledModels ms }
  | none => r

/-- `DisableModel`. -/
def disableModel (r : ModelRegistry) (name : String) : ModelRegistry :=
  match updateFirst name (fun m => { m with enabled := false }) r.models with
  | some ms => { models := ms, enabledModels := refreshEnabledModels ms }
  | none => r

/-- `UpdateModelPriority`. -/
def updateModelPriority (r : ModelRegistry) (name : String) (p : ℤ) :
    ModelRegistry :=
  match updateFirst name (fun m => { m with priority := p }) r.models with
  | some ms => { models := ms, enabledModels := refreshEnabledModels ms }
  | none => r

/-- The startup model catalog (`getStartupModelConfigs`), restricted to the
ordering-relevant fields. -/
def getStartupModelConfigs : List ModelConfig :=
  [ { name := "Moonshot-Kimi-K2", priority := 1, enabled := true },
    { name := "Gemini-1.5-Flash", priority := 2, enabled := true },
    { name := "Sonoma-Sky-Alpha", priority := 3, enabled := true },
    { name := "Deepseek-V3.1", priority := 5, enabled := true } ]

/-- `NewModelRegistry`. -/
def NewModelRegistry : ModelRegistry :=
  { models := getStartupModelConfigs
    enabledModels := refreshEnabledModels getStartupModelConfigs }

/-- A registry mutation, as exposed by the registry's public operations. -/
inductive RegistryOp where
  | load (configs : List ModelConfig)
  | enable (name : String)
  | disable (name : String)
  | reprioritize (name : String) (p : ℤ)

def stepRegistry (r : ModelRegistry) : RegistryOp → ModelRegistry
  | .load cs => loadFromConfig r cs
  | .enable n => enableModel r n
  | .disable n => disableModel r n
  | .reprioritize n p => updateModelPriority r n p

def runRegistry (r : ModelRegistry) (ops : List RegistryOp) : ModelRegistry :=
  ops.foldl stepRegistry r

/-! ## Response normalizer (`parseAnalysis` in the LLM detector)

`parseAnalysis` extracts `(score, threatTypes, reason)` from a generative
reply with three Go regular expressions:

* `SCORE:([0-9]*\.?[0-9]+)` — leftmost match; the captured numeric token is
  the greedy digits / optional dot / digits match;
* `THREATS:([^R]*)` — leftmost literal `THREATS:`, group = the run of
  non-`R` runes after it;
* `REASON:(.+?)$` — `.` excludes newline and `$` anchors at end of input,
  so a match exists at a position exactly when the remainder after
  `REASON:` is nonempty and newline-free.

The models below reproduce the leftmost-match scans character by
character. -/

inductive ThreatType where
  | jailbreak
  | systemPromptLeak
  | injection
  | dataExtraction
  | encodingAttack
  | delimiterAttack
deriving DecidableEq, Repr

/-- The string constants of the `ThreatType` enumeration. -/
def threatTypeStr : ThreatType → String
  | .jailbreak => "jailbreak"
  | .systemPromptLeak => "system_prompt_leak"
  | .injection => "injection"
  | .dataExtraction => "data_extraction"
  | .encodingAttack => "encoding_attack"
  | .delimiterAttack => "delimiter_attack"

def isDigitCh (c : Char) : Bool := '0' ≤ c && c ≤ '9'

/-- The numeric token `[0-9]*\.?[0-9]+` matched greedily at the head of
`l`, if any (backtracking-preference semantics: maximal leading digit run,
then a dot only when followed by a digit, then the maximal digit run). -/
def numberAt (l : List Char) : Option (List Char) :=
  let d1 := l.takeWhile isDigitCh
  let r1 := l.dropWhile isDigitCh
  if d1 = [] then
    match r1 with
    | '.' :: r2 =>
        let d2 := r2.takeWhile isDigitCh
        if d2 = [] then none else some ('.' :: d2)
    | _ => none
  else
    match r1 with
    | '.' :: r2 =>
        let d2 := r2.takeWhile isDigitCh
        if d2 = [] then some d1 else some (d1 ++ '.' :: d2)
    | _ => some d1

/-- Leftmost match of `SCORE:([0-9]*\.?[0-9]+)`: the first position whose
suffix starts with the literal `SCORE:` followed by a numeric token; the
captured token is returned. -/
def findScoreTok : List Char → Option (List Char)
  | [] => none
  | c :: rest =>
      if "SCORE:".toList.isPrefixOf (c :: rest) then
        match numberAt ((c :: rest).drop 6) with
        | some tok => some tok
        | none => findScoreTok rest
      else findScoreTok rest

/-- Value of a digit run as a natural number. -/
def digitsVal (ds : List Char) : ℕ :=
  ds.foldl (fun a c => a * 10 + (c.toNat - 48)) 0

/-- `strconv.ParseFloat` on a token of shape `digits`, `digits.digits` or
`.digits`.  The decimal value is kept exact (ℚ); values at or beyond
`2^1024` round to `+Inf` and make `ParseFloat` return a range error,
modelled as `none`. -/
def parseGoFloat (tok : List Char) : Option ℚ :=
  let ip := tok.takeWhile isDigitCh
  let v : ℚ :=
    match tok.dropWhile isDigitCh with
    | '.' :: fp =>
        mkRat ((digitsVal ip * 10 ^ fp.length + digitsVal fp : ℕ) : ℤ)
          (10 ^ fp.length)
    | _ => mkRat ((digitsVal ip : ℕ) : ℤ) 1
  if v < mkRat (((2 : ℕ) ^ 1024 : ℕ) : ℤ) 1 then some v else none

/-- The suffix after the leftmost occurrence of `pat` (used for the
`THREATS:` literal whose group `[^R]*` always matches, possibly empty). -/
def suffixAfterFirst (pat : List Char) : List Char → Option (List Char)
  | [] => if pat = [] then some [] else none
  | c :: rest =>
      if pat.isPrefixOf (c :: rest) then some ((c :: rest).drop pat.length)
      else suffixAfterFirst pat rest

/-- Leftmost match of `REASON:(.+?)$` (no multiline flag): the first
position where `REASON:` is followed by a nonempty newline-free remainder;
the group is that remainder. -/
def reasonMatch : List Char → Option (List Char)
  | [] => none
  | c :: rest =>
      if "REASON:".toList.isPrefixOf (c :: rest) then
        let tail := (c :: rest).drop 7
        if tail ≠ [] ∧ tail.all (· ≠ '\n') then some tail
        else reasonMatch rest
      else reasonMatch rest

/-- `unicode.IsSpace` for the code points that occur in provider replies
(the ASCII whitespace set plus NEL and NBSP; the remaining Unicode
space-property code points are not produced by the modelled providers). -/
def isGoSpace (c : Char) : Bool :=
  c = ' ' || c = '\t' || c = '\n' || (c = Char.ofNat 11) ||
    (c = Char.ofNat 12) || c = '\r' || (c = Char.ofNat 0x85) ||
    (c = Char.ofNat 0xA0)

/-- `strings.TrimSpace`. -/
def trimSpace (l : List Char) : List Char :=
  ((l.dropWhile isGoSpace).reverse.dropWhile isGoSpace).reverse

/-- `strings.Split(s, ",")`: `n` commas yield `n+1` fields. -/
def splitOnComma : List Char → List (List Char)
  | [] => [[]]
  | c :: rest =>
      if c = ',' then [] :: splitOnComma rest
      else
        match splitOnComma rest with
        | h :: t => (c :: h) :: t
        | [] => [[c]]

/-- `strings.ToLower` on the ASCII range (provider threat tokens are
ASCII; non-ASCII letters can never equal a table entry either way). -/
def asciiToLower (c : Char) : Char :=
  if 'A' ≤ c ∧ c ≤ 'Z' then Char.ofNat (c.toNat + 32) else c

/-- The threat-token table of `parseAnalysis`; unknown tokens map to
`none` and are dropped. -/
def threatOfToken (tok : List Char) : Option ThreatType :=
  let s : List Char := tok.map asciiToLower
  if s = "jailbreak".toList then some .jailbreak
  else if s = "system_leak".toList ∨ s = "system_prompt_leak".toList then
    some .systemPromptLeak
  else if s = "data_extraction".toList then some .dataExtraction
  else if s = "injection".toList then some .injection
  else if s = "encoding_attack".toList then some .encodingAttack
  else if s = "delimiter_attack".toList then some .delimiterAttack
  else none

/-- The threat list extracted from the `THREATS:` group: trim the group;
if the trimmed text is nonempty (the source also redundantly compares with
`" "`, which `TrimSpace` can never produce), split on commas, trim each
token, skip empties, and map through the table. -/
def threatsOfGroup (group : List Char) : List ThreatType :=
  let threatStr := trimSpace group
  if threatStr ≠ [] ∧ threatStr ≠ [' '] then
    (splitOnComma threatStr).filterMap fun tok =>
      let tok := trimSpace tok
      if tok = [] then none else threatOfToken tok
  else []

structure ParsedAnalysis where
  score : ℚ
  threatTypes : List ThreatType
  reason : String
deriving DecidableEq, Repr

/-- `parseAnalysis`: defaults `score = 0.3`, no threats, reason
`"Unable to parse LLM response"`, each overridden when its regex matches
(and, for the score, when `ParseFloat` additionally succeeds). -/
def parseAnalysis (analysis : String) : ParsedAnalysis :=
  let l := analysis.toList
  let score : ℚ :=
    match findScoreTok l with
    | some tok =>
        match parseGoFloat tok with
        | some v => v
        | none => mkRat 3 10
    | none => mkRat 3 10
  let threatTypes : List ThreatType :=
    match suffixAfterFirst "THREATS:".toList l with
    | some suff => threatsOfGroup (suff.takeWhile (· ≠ 'R'))
    | none => []
  let reason : String :=
    match reasonMatch l with
    | some g => String.mk (trimSpace g)
    | none => "Unable to parse LLM response"
  { score := score, threatTypes := threatTypes, reason := reason }

/-! ## LLM detection loop (`Detect` in the LLM detector)

`Detect` walks the configured endpoints in order and, for each endpoint,
the candidate texts (the original plus decoded variants); each remote call
either fails with an error or yields a raw analysis string.  The remote
outcomes are supplied as an oracle: one `Except error analysis` per
(endpoint, candidate) pair, in iteration order.  The `ctx.Done()` timeout
branch depends on wall-clock time and is not taken in the model (its two
returns coincide with the final `endpointSuccessCount` dispatch anyway).
`bestResult` initially aliases `result`, but it is never mutated before the
first successful call, so the alias is unobservable. -/

structure BestVerdict where
  score : ℚ
  threatTypes : List ThreatType
  reason : String
deriving DecidableEq, Repr

/-- The running verdict created at the start of `Detect`. -/
def initialBest : BestVerdict :=
  { score := mkRat 1 2, threatTypes := [], reason := "Analyzing with LLM..." }

inductive TextsOut where
  | early (best : BestVerdict)
  | done (best : BestVerdict) (worked : Bool) (lastErr : Option String)
deriving Repr

/-- The inner loop of `Detect` over the candidate texts of one endpoint:
on a successful call, parse; replace the running best when the parsed
score strictly exceeds it; return immediately when the parsed score is
≥ 0.8. -/
def detectTexts (best : BestVerdict) (worked : Bool) (lastErr : Option String) :
    List (Except String String) → TextsOut
  | [] => .done best worked lastErr
  | .error e :: rest => detectTexts best worked (some e) rest
  | .ok analysis :: rest =>
      let p := parseAnalysis analysis
      let best' :=
        if best.score < p.score then
          { score := p.score, threatTypes := p.threatTypes, reason := p.reason }
        else best
      if mkRat 4 5 ≤ p.score then .early best'
      else detectTexts best' true lastErr rest

inductive DetectOut where
  | early (best : BestVerdict)
  | finished (best : BestVerdict) (successCount : ℕ) (lastErr : Option String)
deriving Repr

/-- The outer loop of `Detect` over the endpoints. -/
def detectEndpoints (best : BestVerdict) (successCount : ℕ)
    (lastErr : Option String) :
    List (List (Except String String)) → DetectOut
  | [] => .finished best successCount lastErr
  | ep :: rest =>
      match detectTexts best false lastErr ep with
      | .early b => .early b
      | .done b worked le =>
          detectEndpoints b (if worked then successCount + 1 else successCount)
            le rest

/-- Go's `%v` rendering of a `nil`-able error inside `fmt.Errorf`. -/
def goErrStr : Option String → String
  | some e => e
  | none => "<nil>"

structure DetectionResultM where
  score : ℚ
  threatTypes : List ThreatType
  reason : String
deriving DecidableEq, Repr

instance {ε α : Type} [DecidableEq ε] [DecidableEq α] :
    DecidableEq (Except ε α) := fun x y =>
  match x, y with
  | .ok a, .ok b =>
      if h : a = b then .isTrue (by rw [h])
      else .isFalse fun hc => h (Except.ok.inj hc)
  | .error e, .error f =>
      if h : e = f then .isTrue (by rw [h])
      else .isFalse fun hc => h (Except.error.inj hc)
  | .ok _, .error _ => .isFalse fun hc => Except.noConfusion hc
  | .error _, .ok _ => .isFalse fun hc => Except.noConfusion hc

/-- `Detect` with the per-call outcomes given as an oracle (`outcomes` has
one entry per endpoint, each a list with one entry per candidate text).
Returns the detection result or the all-endpoints-failed error. -/
def Detect (outcomes : List (List (Except String String))) :
    Except String DetectionResultM :=
  match detectEndpoints initialBest 0 none outcomes with
  | .early b => .ok ⟨b.score, b.threatTypes, b.reason⟩
  | .finished b successCount lastErr =>
      if 0 < successCount then .ok ⟨b.score, b.threatTypes, b.reason⟩
      else .error ("all LLM endpoints failed, last error: " ++ goErrStr lastErr)

/-! ## Fallback pipeline (`pipeline_with_fallback.go`)

`Analyze` validates the input, resolves the per-request configuration,
then walks the enabled models in registry order, calling each through its
circuit breaker.  What each model call produces (the circuit-open
sentinel, a detection error, or a result) is supplied as an oracle, one
outcome per enabled model in order.  On exhaustion the Go code logs with
`lastError.Error()`; when no model was attempted `lastError` is the nil
interface and that call panics, which the model surfaces as
`GoPanic.nilPointerDereference`. -/

structure DetectionConfigM where
  confidenceThreshold : ℚ
deriving DecidableEq, Repr

structure DetectionRequest where
  text : String
  config : Option DetectionConfigM
deriving DecidableEq, Repr

structure DetectionResponse where
  isMalicious : Bool
  confidence : ℚ
  threatTypes : List String
  reason : String
  endpoint : String
deriving DecidableEq, Repr

/-- The pipeline's process-wide default confidence threshold (0.6, set in
`NewFallbackPipeline`). -/
def pipelineDefaultThreshold : ℚ := mkRat 3 5

/-- `applyConfig`: a missing config becomes the zero value; a zero
threshold is replaced by the default. -/
def applyConfig (config : Option DetectionConfigM) : DetectionConfigM :=
  let c := config.getD ⟨0⟩
  if c.confidenceThreshold = 0 then ⟨pipelineDefaultThreshold⟩ else c

/-- `buildResponse`: the response is malicious when the score reaches the
threshold (a zero threshold falls back to the default again). -/
def buildResponse (result : DetectionResultM) (config : DetectionConfigM)
    (modelUsed : String) : DetectionResponse :=
  let threshold :=
    if config.confidenceThreshold = 0 then pipelineDefaultThreshold
    else config.confidenceThreshold
  { isMalicious := decide (threshold ≤ result.score)
    confidence := result.score
    threatTypes := result.threatTypes.map threatTypeStr
    reason := result.reason
    endpoint := modelUsed }

/-- `handleEmptyInput`. -/
def handleEmptyInput : DetectionResponse :=
  { isMalicious := false, confidence := 0, threatTypes := []
    reason := "Empty input - not malicious", endpoint := "none" }

/-- Go's `%v` rendering of a string slice. -/
def goSliceFmt (names : List String) : String :=
  "[" ++ String.intercalate " " names ++ "]"

/-- `handleAllModelsFailed`. -/
def handleAllModelsFailed (attemptedModels : List String) : DetectionResponse :=
  { isMalicious := false
    confidence := mkRat 1 2
    threatTypes := []
    reason := "All detection models unavailable (tried: " ++
      goSliceFmt attemptedModels ++ ") - returning safe classification"
    endpoint := "fallback_failed" }

/-- Outcome of one model attempt (`circuitBreaker.Call` around
`detectWithModel`). -/
inductive ModelOutcome where
  | circuitOpen
  | failure (msg : String)
  | success (result : DetectionResultM)
deriving Repr

/-- Message of the `ErrCircuitOpen` sentinel. -/
def errCircuitOpenMsg : String := "circuit breaker is open"

/-- Message of the `ErrAllModelsFailed` sentinel. -/
def errAllModelsFailedMsg : String :=
  "all detection models are currently unavailable"

/-- The model loop of `Analyze`: returns the first success (with the value
of `lastError` at that point) or, after exhaustion, the final `lastError`. -/
def analyzeLoop (lastError : Option String) :
    List (String × ModelOutcome) →
    Option (String × DetectionResultM) × Option String
  | [] => (none, lastError)
  | (_, .circuitOpen) :: rest => analyzeLoop (some errCircuitOpenMsg) rest
  | (_, .failure e) :: rest => analyzeLoop (some e) rest
  | (name, .success r) :: _ => (some (name, r), lastError)

/-- A Go runtime panic surfaced by the model. -/
inductive GoPanic where
  | nilPointerDereference
deriving DecidableEq, Repr

/-- `Analyze`, with the enabled models and their single-attempt outcomes
as the oracle `models`.  Returns the response paired with the error value
`Analyze` returns alongside it (`none` = nil), or the panic that the
exhaustion log statement raises when `lastError` is nil. -/
def Analyze (req : DetectionRequest) (models : List (String × ModelOutcome)) :
    Except GoPanic (DetectionResponse × Option String) :=
  if req.text = "" then .ok (handleEmptyInput, none)
  else
    let config := applyConfig req.config
    match analyzeLoop none models with
    | (some (name, result), _) => .ok (buildResponse result config name, none)
    | (none, some _) =>
        .ok (handleAllModelsFailed (models.map Prod.fst),
             some errAllModelsFailedMsg)
    | (none, none) => .error .nilPointerDereference

/-- The effective threshold of a request, as the spec derives it: the
request's threshold when supplied and nonzero, else the process default. -/
def effectiveThreshold (req : DetectionRequest) : ℚ :=
  match req.config with
  | none => pipelineDefaultThreshold
  | some c =>
      if c.confidenceThreshold = 0 then pipelineDefaultThreshold
      else c.confidenceThreshold

/-! ## ROT13 preprocessor (`rot13` in the LLM detector)

The Go function is

```
result := make([]rune, len(text))        // len(text) = BYTE length
for i, char := range text {              // i = BYTE offset of the rune
    ... result[i] = rotated char ...
}
return string(result)
```

`range` decodes UTF-8 runes but yields byte offsets, while `result` is a
rune slice of byte length: every rune is written at its byte offset and
the offsets skipped by multi-byte runes keep the zero rune that `make`
initialised, so each decoded rune of encoded size `s` contributes its
rotation followed by `s − 1` NUL runes.  `string(result)` then UTF-8
encodes that rune slice.  The model works on UTF-8 byte lists to capture
this; `decodeUtf8` follows Go's `DecodeRuneInString` (invalid bytes decode
to U+FFFD consuming one byte). -/

/-- Is `b` a UTF-8 continuation byte? -/
def isCont (b : ℕ) : Bool := 0x80 ≤ b && b ≤ 0xBF

/-- Decode one rune from first byte `b` and remaining bytes `rest`,
following Go's UTF-8 decoder (RFC 3629 accept ranges; anything else is
U+FFFD of size one).  Returns the rune and how many bytes of `rest` it
consumed. -/
def decodeUtf8 (b : ℕ) (rest : List ℕ) : ℕ × ℕ :=
  if b < 0x80 then (b, 0)
  else if 0xC2 ≤ b ∧ b ≤ 0xDF then
    match rest with
    | c :: _ =>
        if isCont c then ((b - 0xC0) * 64 + (c - 0x80), 1) else (0xFFFD, 0)
    | [] => (0xFFFD, 0)
  else if 0xE0 ≤ b ∧ b ≤ 0xEF then
    match rest with
    | c :: d :: _ =>
        let lo := if b = 0xE0 then 0xA0 else 0x80
        let hi := if b = 0xED then 0x9F else 0xBF
        if (lo ≤ c ∧ c ≤ hi) ∧ isCont d then
          ((b - 0xE0) * 4096 + (c - 0x80) * 64 + (d - 0x80), 2)
        else (0xFFFD, 0)
    | _ => (0xFFFD, 0)
  else if 0xF0 ≤ b ∧ b ≤ 0xF4 then
    match rest with
    | c :: d :: e :: _ =>
        let lo := if b = 0xF0 then 0x90 else 0x80
        let hi := if b = 0xF4 then 0x8F else 0xBF
        if (lo ≤ c ∧ c ≤ hi) ∧ isCont d ∧ isCont e then
          ((b - 0xF0) * 262144 + (c - 0x80) * 4096 + (d - 0x80) * 64 +
            (e - 0x80), 3)
        else (0xFFFD, 0)
    | _ => (0xFFFD, 0)
  else (0xFFFD, 0)

/-- The per-rune rotation of `rot13`: ASCII letters rotate by 13 inside
their case class, every other rune is returned unchanged. -/
def rot13Rune (c : ℕ) : ℕ :=
  if 97 ≤ c ∧ c ≤ 122 then 97 + (c - 97 + 13) % 26
  else if 65 ≤ c ∧ c ≤ 90 then 65 + (c - 65 + 13) % 26
  else c

/-- UTF-8 encoding of one rune, as Go's `string([]rune)` performs it
(surrogates and out-of-range values encode as U+FFFD). -/
def utf8Encode (r : ℕ) : List ℕ :=
  if r < 0x80 then [r]
  else if r < 0x800 then [0xC0 + r / 64, 0x80 + r % 64]
  else if r < 0x10000 then
    if 0xD800 ≤ r ∧ r ≤ 0xDFFF then [0xEF, 0xBF, 0xBD]
    else [0xE0 + r / 4096, 0x80 + r / 64 % 64, 0x80 + r % 64]
  else if r ≤ 0x10FFFF then
    [0xF0 + r / 262144, 0x80 + r / 4096 % 64, 0x80 + r / 64 % 64,
      0x80 + r % 64]
  else [0xEF, 0xBF, 0xBD]

/-- Contents of the `result` rune slice: for each decoded rune its
rotation, followed by one zero rune per extra byte the rune occupied (the
slice positions `range` never writes).  The fuel argument bounds the
number of loop iterations; each iteration consumes at least one byte, so
the byte count is always enough fuel. -/
def rot13RunesGo : ℕ → List ℕ → List ℕ
  | 0, _ => []
  | _, [] => []
  | fuel + 1, b :: rest =>
      let (r, k) := decodeUtf8 b rest
      (rot13Rune r :: List.replicate k 0) ++ rot13RunesGo fuel (rest.drop k)

def rot13Runes (bytes : List ℕ) : List ℕ := rot13RunesGo bytes.length bytes

/-- `rot13` on a UTF-8 byte string: fill the byte-length rune slice as the
loop does, then encode it back (`string(result)`). -/
def rot13 (bytes : List ℕ) : List ℕ :=
  ((rot13Runes bytes).map utf8Encode).flatten

/-! # Theorems -/

theorem i64wrap_eq_self {x : ℤ} (h : inI64 x) : i64wrap x = x := by
  obtain ⟨h1, h2⟩ := h
  unfold i64wrap
  omega

/-! ## C3: admission while OPEN -/

/-- **C3, counterexample.**  A breaker that opened at time 0 with backoff 5
is still in state OPEN at time 6, yet `Call` at time 6 does not return the
circuit-open sentinel and does invoke the guarded adapter function: the
admission check transitions the breaker to HALF_OPEN once the backoff has
elapsed, contradicting "state OPEN ⇒ allow() returns circuit-open without
invoking the adapter". -/
theorem open_state_can_admit :
    (runCB (NewCircuitBreaker ⟨1, 1, 5, 100⟩) [.record 0 false]).state =
      .opened ∧
    (callCB (runCB (NewCircuitBreaker ⟨1, 1, 5, 100⟩) [.record 0 false])
      6 6 true).2 = (false, true) := by
  constructor
  · rfl
  · rfl

/-- **C3, amended.**  While a breaker is OPEN *and its backoff has not yet
elapsed* (`now − lastFailureTime ≤ timeout`), `Call` returns the
circuit-open sentinel without invoking the guarded function and leaves the
breaker unchanged.  (Once the backoff elapses, the admission check instead
transitions the breaker to HALF_OPEN and admits the probe.) -/
theorem open_within_backoff_blocks (cb : CircuitBreaker)
    (tAllow tRecord : ℤ) (fnOk : Bool) (hs : cb.state = .opened)
    (ht : tAllow - cb.lastFailureTime ≤ cb.timeout) :
    callCB cb tAllow tRecord fnOk = (cb, true, false) := by
  unfold callCB allowRequest
  rw [hs]
  simp [not_lt.mpr ht]

/-- Witness for C3 (amended): a concrete freshly opened breaker queried
inside its backoff window. -/
theorem open_within_backoff_blocks_witness :
    (runCB (NewCircuitBreaker ⟨1, 1, 5, 100⟩) [.record 0 false]).state =
      .opened ∧
    callCB (runCB (NewCircuitBreaker ⟨1, 1, 5, 100⟩) [.record 0 false])
      3 3 true =
      (runCB (NewCircuitBreaker ⟨1, 1, 5, 100⟩) [.record 0 false],
        true, false) :=
  ⟨by decide, open_within_backoff_blocks _ 3 3 true (by decide) (by decide)⟩

/-! ## C4: HALF_OPEN transitions -/

/-- **C4, counterexample.**  A breaker with `failureThreshold = 3`,
`successThreshold = 2` that opened, was admitted half-open, and recorded
one probe success is in HALF_OPEN with `consecutiveFailures = 0`; a single
recorded failure then leaves it in HALF_OPEN (the failure count 1 is below
the threshold 3), contradicting "a single failure in HALF_OPEN transitions
to OPEN". -/
theorem halfopen_failure_can_stay_halfopen :
    (runCB (NewCircuitBreaker ⟨3, 2, 60, 600⟩)
      [.record 0 false, .record 0 false, .record 0 false, .allow 200,
        .record 201 true]).state = .halfOpen ∧
    (recordResult
      (runCB (NewCircuitBreaker ⟨3, 2, 60, 600⟩)
        [.record 0 false, .record 0 false, .record 0 false, .allow 200,
          .record 201 true])
      202 false).state = .halfOpen := by
  constructor
  · rfl
  · rfl

/-- **C4, amended.**  In HALF_OPEN, a recorded failure transitions the
breaker to OPEN exactly when the new consecutive-failure count reaches
`failureThreshold` (which holds on entry to HALF_OPEN from OPEN, where the
count is still at or above the threshold, but not after an intervening
success reset the count); and from HALF_OPEN with a zeroed success count
(as the admission transition leaves it), recording `successThreshold ≥ 1`
consecutive successes transitions the breaker to CLOSED with
`consecutiveSuccesses` reset to zero. -/
theorem halfopen_transitions (cb : CircuitBreaker) (now : ℤ)
    (hs : cb.state = .halfOpen) :
    ((recordResult cb now false).state =
      if cb.failureThreshold ≤ cb.consecutiveFailures + 1 then .opened
      else .halfOpen) ∧
    (cb.consecutiveSuccesses = 0 → 1 ≤ cb.successThreshold →
      (recordSuccesses cb now cb.successThreshold.toNat).state = .closed ∧
      (recordSuccesses cb now cb.successThreshold.toNat).consecutiveSuccesses
        = 0) := by
  constructor
  · unfold recordResult
    simp only [Bool.false_eq_true, if_false]
    split
    · rfl
    · simpa using hs
  · intro hcs hst
    have key : ∀ (k : ℕ) (cb : CircuitBreaker) (now : ℤ),
        cb.state = .halfOpen → 1 ≤ k →
        cb.consecutiveSuccesses + k = cb.successThreshold →
        (recordSuccesses cb now k).state = .closed ∧
        (recordSuccesses cb now k).consecutiveSuccesses = 0 := by
      intro k
      induction k with
      | zero => intro cb now _ h1 _; omega
      | succ n ih =>
          intro cb now hho _ hsum
          by_cases hn : n = 0
          · subst hn
            unfold recordSuccesses recordSuccesses
            unfold recordResult
            simp only [if_true]
            rw [if_pos ⟨hho, by push_cast at hsum; omega⟩]
            exact ⟨rfl, rfl⟩
          · have hn1 : 1 ≤ n := Nat.one_le_iff_ne_zero.mpr hn
            have hstep : recordResult cb now true =
                { cb with consecutiveFailures := 0
                          consecutiveSuccesses := cb.consecutiveSuccesses + 1
                          successfulRequests := cb.successfulRequests + 1 } := by
              unfold recordResult
              simp only [if_true]
              rw [if_neg]
              rintro ⟨-, habs⟩
              push_cast at hsum
              omega
            have hrec : recordSuccesses cb now (n + 1) =
                recordSuccesses (recordResult cb now true) now n := rfl
            rw [hrec, hstep]
            exact ih
              { cb with consecutiveFailures := 0
                        consecutiveSuccesses := cb.consecutiveSuccesses + 1
                        successfulRequests := cb.successfulRequests + 1 }
              now hho hn1
              (by show cb.consecutiveSuccesses + 1 + (n : ℤ) =
                    cb.successThreshold
                  push_cast at hsum
                  omega)
    refine key cb.successThreshold.toNat cb now hs ?_ ?_
    · omega
    · rw [hcs, Int.toNat_of_nonneg (by omega)]
      ring

/-- Witness for C4 (amended): a breaker with thresholds (3, 2) reached
HALF_OPEN through three failures and an admission; its next failure opens
the circuit (count 4 ≥ 3), and two successes close it. -/
theorem halfopen_transitions_witness :
    ((recordResult
        (runCB (NewCircuitBreaker ⟨3, 2, 60, 600⟩)
          [.record 0 false, .record 0 false, .record 0 false, .allow 200])
        201 false).state = .opened) ∧
    ((recordSuccesses
        (runCB (NewCircuitBreaker ⟨3, 2, 60, 600⟩)
          [.record 0 false, .record 0 false, .record 0 false, .allow 200])
        201 2).state = .closed) := by
  have h := halfopen_transitions
    (runCB (NewCircuitBreaker ⟨3, 2, 60, 600⟩)
      [.record 0 false, .record 0 false, .record 0 false, .allow 200])
    201 (by decide)
  refine ⟨?_, ?_⟩
  · rw [h.1]; decide
  · exact (h.2 (by decide) (by decide)).1

/-! ## C5: backoff growth and bounds -/

theorem runNoOverflow_cons (cb : CircuitBreaker) (op : CBOp)
    (ops : List CBOp) :
    runNoOverflow cb (op :: ops) =
      (stepNoOverflow cb op && runNoOverflow (stepCB cb op) ops) := by
  have aux : ∀ (ops : List CBOp) (s : CircuitBreaker) (b : Bool),
      (ops.foldl (fun p op => (stepCB p.1 op, p.2 && stepNoOverflow p.1 op))
        (s, b)).2 =
      (b && (ops.foldl
        (fun p op => (stepCB p.1 op, p.2 && stepNoOverflow p.1 op))
        (s, true)).2) := by
    intro ops
    induction ops with
    | nil => intro s b; simp
    | cons op ops ih =>
        intro s b
        simp only [List.foldl_cons]
        rw [ih, ih (stepCB s op) (true && stepNoOverflow s op)]
        cases b <;> simp
  unfold runNoOverflow
  simp only [List.foldl_cons]
  rw [aux]
  simp

theorem allowRequest_fields (cb : CircuitBreaker) (now : ℤ) :
    (allowRequest cb now).1.timeout = cb.timeout ∧
      (allowRequest cb now).1.consecutiveFailures = cb.consecutiveFailures ∧
      (allowRequest cb now).1.maxTimeout = cb.maxTimeout := by
  obtain ⟨ft, st, t, mt, cf, cs, lf, s, tr, sr, fr⟩ := cb
  unfold allowRequest
  cases s <;> dsimp only
  · exact ⟨rfl, rfl, rfl⟩
  · split
    · exact ⟨rfl, rfl, rfl⟩
    · exact ⟨rfl, rfl, rfl⟩
  · exact ⟨rfl, rfl, rfl⟩

theorem backoffInv_step (base maxT : ℤ) (cb : CircuitBreaker) (op : CBOp)
    (hbm : base ≤ maxT) (h1 : base ≤ cb.timeout) (h2 : cb.timeout ≤ maxT)
    (h3 : 0 ≤ cb.consecutiveFailures) (h4 : cb.maxTimeout = maxT)
    (hbase : 0 ≤ base) (hok : stepNoOverflow cb op = true) :
    base ≤ (stepCB cb op).timeout ∧ (stepCB cb op).timeout ≤ maxT ∧
      0 ≤ (stepCB cb op).consecutiveFailures ∧
      (stepCB cb op).maxTimeout = maxT := by
  cases op with
  | allow now =>
      have hf := allowRequest_fields cb now
      simp only [stepCB]
      rw [hf.1, hf.2.1, hf.2.2]
      exact ⟨h1, h2, h3, h4⟩
  | reset =>
      simp only [stepCB, resetCB]
      exact ⟨h1, h2, le_rfl, h4⟩
  | record now success =>
      simp only [stepCB]
      cases success with
      | true =>
          unfold recordResult
          simp only [if_true]
          split
          · exact ⟨h1, h2, le_rfl, h4⟩
          · exact ⟨h1, h2, le_rfl, h4⟩
      | false =>
          unfold recordResult
          simp only [Bool.false_eq_true, if_false]
          unfold stepNoOverflow at hok
          simp only [Bool.false_eq_true, if_false, Bool.and_eq_true,
            decide_eq_true_eq] at hok
          split
          · rename_i hft
            have hft' : cb.failureThreshold ≤ cb.consecutiveFailures + 1 :=
              hft
            have hin : inI64 (cb.timeout * (cb.consecutiveFailures + 1)) := by
              have h5 := hok.2
              rw [if_pos hft'] at h5
              simpa using h5
            have hprod : cb.timeout ≤
                cb.timeout * (cb.consecutiveFailures + 1) :=
              le_mul_of_one_le_right (by omega) (by omega)
            refine ⟨?_, ?_, by show (0:ℤ) ≤ cb.consecutiveFailures + 1; omega,
              h4⟩
            · show base ≤
                (if cb.maxTimeout <
                    i64wrap (cb.timeout * (cb.consecutiveFailures + 1)) then
                  cb.maxTimeout
                else i64wrap (cb.timeout * (cb.consecutiveFailures + 1)))
              rw [i64wrap_eq_self hin]
              split <;> omega
            · show
                (if cb.maxTimeout <
                    i64wrap (cb.timeout * (cb.consecutiveFailures + 1)) then
                  cb.maxTimeout
                else i64wrap (cb.timeout * (cb.consecutiveFailures + 1)))
                ≤ maxT
              rw [i64wrap_eq_self hin]
              split <;> omega
          · exact ⟨h1, h2,
              by show (0:ℤ) ≤ cb.consecutiveFailures + 1; omega, h4⟩

/-- **C5, counterexample.**  A breaker configured with
`baseTimeout = maxTimeout = 2^62` ns (a representable `time.Duration`
satisfying `baseTimeout ≤ maxTimeout`) violates
`baseTimeout ≤ timeout ≤ maxTimeout` after two recorded failures: the Go
backoff update multiplies two `int64` durations, `2^62 · 2` wraps to
`−2^63`, and the cap comparison keeps the wrapped negative value. -/
theorem backoff_overflow_breaks_bounds :
    (runCB (NewCircuitBreaker ⟨1, 1, 2 ^ 62, 2 ^ 62⟩)
      [.record 0 false, .allow (2 ^ 62 + 1),
        .record (2 ^ 62 + 2) false]).timeout = -(2 ^ 63) ∧
    ¬((2 ^ 62 : ℤ) ≤
      (runCB (NewCircuitBreaker ⟨1, 1, 2 ^ 62, 2 ^ 62⟩)
        [.record 0 false, .allow (2 ^ 62 + 1),
          .record (2 ^ 62 + 2) false]).timeout) := by
  constructor
  · rfl
  · decide

/-- **C5, amended.**  When a recorded failure makes the consecutive-failure
count reach `failureThreshold`, the state becomes OPEN and the backoff is
set to `min(timeout × consecutiveFailures, maxTimeout)` — computed with
64-bit wrapping multiplication, so the `min` form holds whenever the
product is `int64`-representable.  Consequently, for every breaker whose
configuration satisfies `0 ≤ baseTimeout ≤ maxTimeout`, after every
operation sequence along which the step arithmetic stays in `int64` range,
`baseTimeout ≤ timeout ≤ maxTimeout`. -/
theorem backoff_bounds :
    (∀ (cb : CircuitBreaker) (now : ℤ),
      cb.failureThreshold ≤ cb.consecutiveFailures + 1 →
      inI64 (cb.timeout * (cb.consecutiveFailures + 1)) →
      (recordResult cb now false).state = .opened ∧
      (recordResult cb now false).timeout =
        min (cb.timeout * (cb.consecutiveFailures + 1)) cb.maxTimeout) ∧
    (∀ (config : CircuitBreakerConfig) (ops : List CBOp),
      0 ≤ config.timeout → config.timeout ≤ config.maxTimeout →
      runNoOverflow (NewCircuitBreaker config) ops = true →
      config.timeout ≤ (runCB (NewCircuitBreaker config) ops).timeout ∧
      (runCB (NewCircuitBreaker config) ops).timeout ≤ config.maxTimeout) := by
  constructor
  · intro cb now hft hin
    unfold recordResult
    simp only [Bool.false_eq_true, if_false]
    split
    · refine ⟨rfl, ?_⟩
      show
        (if cb.maxTimeout <
            i64wrap (cb.timeout * (cb.consecutiveFailures + 1)) then
          cb.maxTimeout
        else i64wrap (cb.timeout * (cb.consecutiveFailures + 1)))
        = min (cb.timeout * (cb.consecutiveFailures + 1)) cb.maxTimeout
      rw [i64wrap_eq_self hin]
      split <;> omega
    · rename_i hc
      exact absurd hft hc
  · intro config ops h0 h1 hov
    have main : ∀ (ops : List CBOp) (cb : CircuitBreaker),
        config.timeout ≤ cb.timeout → cb.timeout ≤ config.maxTimeout →
        0 ≤ cb.consecutiveFailures → cb.maxTimeout = config.maxTimeout →
        runNoOverflow cb ops = true →
        config.timeout ≤ (runCB cb ops).timeout ∧
          (runCB cb ops).timeout ≤ config.maxTimeout := by
      intro ops
      induction ops with
      | nil => intro cb ha hb _ _ _; exact ⟨ha, hb⟩
      | cons op ops ih =>
          intro cb ha hb hc hd hov
          rw [runNoOverflow_cons, Bool.and_eq_true] at hov
          obtain ⟨hok, hov'⟩ := hov
          have hstep := backoffInv_step config.timeout config.maxTimeout cb
            op h1 ha hb hc hd h0 hok
          exact ih (stepCB cb op) hstep.1 hstep.2.1 hstep.2.2.1
            hstep.2.2.2 hov'
    exact main ops (NewCircuitBreaker config) le_rfl h1 le_rfl rfl hov

/-- Witness for C5 (amended): the step part on a freshly built breaker
with `failureThreshold = 1`, and the bounds part on a short failure
trace. -/
theorem backoff_bounds_witness :
    ((recordResult (NewCircuitBreaker ⟨1, 2, 60, 600⟩) 0 false).state =
        .opened ∧
      (recordResult (NewCircuitBreaker ⟨1, 2, 60, 600⟩) 0 false).timeout =
        min ((NewCircuitBreaker ⟨1, 2, 60, 600⟩).timeout *
          ((NewCircuitBreaker ⟨1, 2, 60, 600⟩).consecutiveFailures + 1))
          (NewCircuitBreaker ⟨1, 2, 60, 600⟩).maxTimeout) ∧
    ((60 : ℤ) ≤
        (runCB (NewCircuitBreaker ⟨1, 2, 60, 600⟩) [.record 0 false]).timeout ∧
      (runCB (NewCircuitBreaker ⟨1, 2, 60, 600⟩)
        [.record 0 false]).timeout ≤ 600) :=
  ⟨backoff_bounds.1 (NewCircuitBreaker ⟨1, 2, 60, 600⟩) 0 (by decide)
      (by decide),
    backoff_bounds.2 ⟨1, 2, 60, 600⟩ [.record 0 false] (by decide)
      (by decide) (by decide)⟩

/-! ## C7: the enabled-models view -/

theorem sortInner_spec (x : ModelConfig) (l : List ModelConfig) :
    ((sortInner x l).1 :: (sortInner x l).2).Perm (x :: l) ∧
      (sortInner x l).1.priority ≤ x.priority ∧
      ∀ z ∈ (sortInner x l).2, (sortInner x l).1.priority ≤ z.priority := by
  induction l generalizing x with
  | nil =>
      refine ⟨List.Perm.refl _, le_rfl, ?_⟩
      intro z hz
      simp [sortInner] at hz
  | cons y ys ih =>
      by_cases hlt : y.priority < x.priority
      · rcases hyy : sortInner y ys with ⟨m, zs⟩
        have hred : sortInner x (y :: ys) = (m, x :: zs) := by
          unfold sortInner
          rw [if_pos hlt, hyy]
        rw [hred]
        obtain ⟨hperm, hle, hall⟩ := ih y
        rw [hyy] at hperm hle hall
        dsimp only at hperm hle hall ⊢
        refine ⟨?_, by omega, ?_⟩
        · exact (List.Perm.swap x m zs).trans (hperm.cons x)
        · intro z hz
          rcases List.mem_cons.mp hz with hz | hz
          · subst hz; omega
          · exact hall z hz
      · rcases hyy : sortInner x ys with ⟨m, zs⟩
        have hred : sortInner x (y :: ys) = (m, y :: zs) := by
          unfold sortInner
          rw [if_neg hlt, hyy]
        rw [hred]
        obtain ⟨hperm, hle, hall⟩ := ih x
        rw [hyy] at hperm hle hall
        dsimp only at hperm hle hall ⊢
        refine ⟨?_, hle, ?_⟩
        · exact (List.Perm.swap y m zs).trans
            ((hperm.cons y).trans (List.Perm.swap x y ys))
        · intro z hz
          rcases List.mem_cons.mp hz with hz | hz
          · subst hz; omega
          · exact hall z hz

theorem sortOuter_spec :
    ∀ (n : ℕ) (l : List ModelConfig), l.length ≤ n →
      (sortOuter n l).Perm l ∧
        (sortOuter n l).Sorted (fun a b => a.priority ≤ b.priority) := by
  intro n
  induction n with
  | zero =>
      intro l hl
      have : l = [] := List.eq_nil_of_length_eq_zero (by omega)
      subst this
      exact ⟨List.Perm.refl _, List.sorted_nil⟩
  | succ n ih =>
      intro l hl
      cases l with
      | nil => exact ⟨List.Perm.refl _, List.sorted_nil⟩
      | cons x xs =>
          rcases hxx : sortInner x xs with ⟨m, zs⟩
          have hdef : sortOuter (n + 1) (x :: xs) = m :: sortOuter n zs := by
            conv_lhs => rw [sortOuter]
            rw [hxx]
          obtain ⟨hperm, _, hall⟩ := sortInner_spec x xs
          rw [hxx] at hperm hall
          dsimp only at hperm hall
          have hlen : zs.length ≤ n := by
            have h := hperm.length_eq
            simp only [List.length_cons] at h hl
            omega
          obtain ⟨hp2, hs2⟩ := ih zs hlen
          rw [hdef]
          constructor
          · exact (hp2.cons m).trans hperm
          · rw [List.sorted_cons]
            exact ⟨fun b hb => hall b (hp2.mem_iff.mp hb), hs2⟩

/-- **C7, counterexample.**  Loading three enabled descriptors with
priorities 2, 2, 1 (insertion order A, B, C) produces the view
`[C, B, A]`: the two equal-priority descriptors A and B appear in
*reversed* insertion order, because the nested swap loop moves A past B
while pulling C to the front.  The stable order demanded by the claim
would be `[C, A, B]`. -/
theorem equal_priority_ties_not_stable :
    (loadFromConfig ⟨[], []⟩
      [⟨"A", 2, true⟩, ⟨"B", 2, true⟩, ⟨"C", 1, true⟩]).enabledModels =
      [⟨"C", 1, true⟩, ⟨"B", 2, true⟩, ⟨"A", 2, true⟩] ∧
    (loadFromConfig ⟨[], []⟩
      [⟨"A", 2, true⟩, ⟨"B", 2, true⟩, ⟨"C", 1, true⟩]).enabledModels ≠
      [⟨"C", 1, true⟩, ⟨"A", 2, true⟩, ⟨"B", 2, true⟩] := by
  constructor
  · rfl
  · decide

/-- **C7, amended.**  After any sequence of load / enable / disable /
reprioritize operations from the startup registry, the enabled-models view
is a permutation of the enabled descriptors (in particular it contains
exactly the enabled ones) ordered by non-decreasing priority; descriptors
of equal priority need not keep their insertion order, because the nested
swap loop is not a stable sort. -/
theorem enabled_view_sorted (ops : List RegistryOp) :
    ((runRegistry NewModelRegistry ops).enabledModels).Perm
      ((runRegistry NewModelRegistry ops).models.filter (·.enabled)) ∧
    ((runRegistry NewModelRegistry ops).enabledModels).Sorted
      (fun a b => a.priority ≤ b.priority) := by
  have hview : ∀ (ops : List RegistryOp) (r : ModelRegistry),
      r.enabledModels = refreshEnabledModels r.models →
      (runRegistry r ops).enabledModels =
        refreshEnabledModels (runRegistry r ops).models := by
    intro ops
    induction ops with
    | nil => intro r h; exact h
    | cons op ops ih =>
        intro r h
        refine ih (stepRegistry r op) ?_
        cases op with
        | load cs => rfl
        | enable n =>
            show (enableModel r n).enabledModels =
              refreshEnabledModels (enableModel r n).models
            unfold enableModel
            split
            · rfl
            · exact h
        | disable n =>
            show (disableModel r n).enabledModels =
              refreshEnabledModels (disableModel r n).models
            unfold disableModel
            split
            · rfl
            · exact h
        | reprioritize n p =>
            show (updateModelPriority r n p).enabledModels =
              refreshEnabledModels (updateModelPriority r n p).models
            unfold updateModelPriority
            split
            · rfl
            · exact h
  have hv := hview ops NewModelRegistry rfl
  rw [hv]
  unfold refreshEnabledModels
  exact ⟨(sortOuter_spec _ _ le_rfl).1, (sortOuter_spec _ _ le_rfl).2⟩

/-! ## C1: `is_malicious` versus the effective threshold -/

/-- **C1, counterexample.**  A request supplying `confidence_threshold =
0.4` for which the only model fails: the degraded response has confidence
0.5 and hard-coded `is_malicious = false`, although `0.5 ≥ 0.4` — so
`is_malicious ≠ (confidence ≥ effectiveThreshold)` on the degraded path. -/
theorem degraded_threshold_mismatch :
    Analyze ⟨"hi", some ⟨mkRat 2 5⟩⟩ [("M1", .failure "boom")] =
      .ok (handleAllModelsFailed ["M1"], some errAllModelsFailedMsg) ∧
    (handleAllModelsFailed ["M1"]).isMalicious = false ∧
    effectiveThreshold ⟨"hi", some ⟨mkRat 2 5⟩⟩ ≤
      (handleAllModelsFailed ["M1"]).confidence := by
  refine ⟨rfl, rfl, ?_⟩
  decide

theorem buildResponse_threshold (req : DetectionRequest) :
    (if (applyConfig req.config).confidenceThreshold = 0 then
      pipelineDefaultThreshold
    else (applyConfig req.config).confidenceThreshold) =
      effectiveThreshold req := by
  obtain ⟨text, cfg⟩ := req
  cases cfg with
  | none => rfl
  | some c =>
      have hp0 : pipelineDefaultThreshold ≠ 0 := by decide
      by_cases hz : c.confidenceThreshold = 0
      · simp [applyConfig, effectiveThreshold, hz, hp0]
      · simp [applyConfig, effectiveThreshold, hz]

/-- **C1, amended.**  Every response built from a successful model call
satisfies `is_malicious = (confidence ≥ effectiveThreshold)`, where the
effective threshold is the request's threshold if supplied and nonzero,
else the default 0.6.  The degraded all-models-failed response instead has
`is_malicious = false` and confidence 0.5 unconditionally, so it satisfies
the equation only when the effective threshold exceeds 0.5. -/
theorem success_isMalicious_eq_threshold :
    (∀ (req : DetectionRequest) (models : List (String × ModelOutcome))
        (resp : DetectionResponse),
      Analyze req models = .ok (resp, none) → req.text ≠ "" →
      resp.isMalicious =
        decide (effectiveThreshold req ≤ resp.confidence)) ∧
    (∀ (req : DetectionRequest) (models : List (String × ModelOutcome))
        (resp : DetectionResponse) (e : String),
      Analyze req models = .ok (resp, some e) →
      resp.isMalicious = false ∧ resp.confidence = 1 / 2) := by
  constructor
  · intro req models resp h hne
    unfold Analyze at h
    rw [if_neg hne] at h
    rcases hl : analyzeLoop none models with ⟨fst, le⟩
    rw [hl] at h
    match fst, le, h with
    | some (name, result), le, h =>
        injection h with h'
        injection h' with h1 h2
        subst h1
        unfold buildResponse
        dsimp only
        rw [buildResponse_threshold]
    | none, some e, h =>
        injection h with h'
        injection h' with h1 h2
        exact Option.noConfusion h2
    | none, none, h => exact Except.noConfusion h
  · intro req models resp e h
    unfold Analyze at h
    by_cases htext : req.text = ""
    · rw [if_pos htext] at h
      injection h with h'
      injection h' with h1 h2
      exact Option.noConfusion h2
    · rw [if_neg htext] at h
      rcases hl : analyzeLoop none models with ⟨fst, le⟩
      rw [hl] at h
      match fst, le, h with
      | some (name, result), le, h =>
          injection h with h'
          injection h' with h1 h2
          exact Option.noConfusion h2
      | none, some e', h =>
          injection h with h'
          injection h' with h1 h2
          subst h1
          refine ⟨rfl, ?_⟩
          show mkRat 1 2 = 1 / 2
          rw [Rat.mkRat_eq_div]
          norm_num
      | none, none, h => exact Except.noConfusion h

/-- Witness for C1 (amended): a request with no per-request config served
by one successful model with score 0.9. -/
theorem success_isMalicious_eq_threshold_witness :
    (buildResponse ⟨9 / 10, [], "r"⟩ (applyConfig none) "M1").isMalicious =
      decide (effectiveThreshold ⟨"hi", none⟩ ≤
        (buildResponse ⟨9 / 10, [], "r"⟩ (applyConfig none) "M1").confidence) :=
  success_isMalicious_eq_threshold.1 ⟨"hi", none⟩
    [("M1", .success ⟨9 / 10, [], "r"⟩)] _ rfl (by decide)

/-! ## Numeric bridges

The executable definitions write score constants in the kernel-computable
`mkRat` form; these lemmas restate them as the familiar fractions. -/

theorem mkRat_half : (mkRat 1 2 : ℚ) = 1 / 2 := by
  rw [Rat.mkRat_eq_div]; norm_num

theorem mkRat_four_fifths : (mkRat 4 5 : ℚ) = 4 / 5 := by
  rw [Rat.mkRat_eq_div]; norm_num

theorem mkRat_three_halves : (mkRat 3 2 : ℚ) = 3 / 2 := by
  rw [Rat.mkRat_eq_div]; norm_num

theorem mkRat_three_tenths : (mkRat 3 10 : ℚ) = 3 / 10 := by
  rw [Rat.mkRat_eq_div]; norm_num

/-! ## C2: exhaustion with no attempted models -/

/-- **C2.**  With a nonempty text and *no* enabled models, `Analyze` does
not return the degraded verdict: the exhaustion log statement evaluates
`lastError.Error()` on the nil error interface and panics.  With at least
one attempted model the degraded verdict and the AllModelsFailed sentinel
are returned exactly as the claim describes. -/
theorem analyze_empty_models_panics :
    Analyze ⟨"hi", none⟩ [] = .error .nilPointerDereference ∧
    Analyze ⟨"hi", none⟩ [("M1", .circuitOpen), ("M2", .failure "x")] =
      .ok (handleAllModelsFailed ["M1", "M2"], some errAllModelsFailedMsg) :=
  ⟨rfl, rfl⟩

/-! ## C6: confidence bounds -/

theorem parseGoFloat_nonneg (tok : List Char) (v : ℚ)
    (h : parseGoFloat tok = some v) : 0 ≤ v := by
  have key : ∀ w : ℚ, 0 ≤ w →
      (if w < mkRat (((2 : ℕ) ^ 1024 : ℕ) : ℤ) 1 then some w else none) =
        some v →
      0 ≤ v := by
    intro w hw hyp
    split at hyp
    · injection hyp with hyp
      subst hyp
      exact hw
    · exact Option.noConfusion hyp
  unfold parseGoFloat at h
  split at h
  · refine key _ ?_ h
    rw [Rat.mkRat_eq_div]
    positivity
  · refine key _ ?_ h
    rw [Rat.mkRat_eq_div]
    positivity

set_option maxRecDepth 8000 in
/-- **C6, counterexample.**  The generative reply `"SCORE:1.5 THREATS:
REASON:x"` parses to score 1.5: `parseAnalysis` performs no clamping, the
detection loop adopts 1.5 as the best score (it exceeds 0.8, so the run
early-exits with it), and `buildResponse` passes it through as the
response confidence — outside [0, 1]. -/
theorem generative_score_above_one :
    Detect [[Except.ok "SCORE:1.5 THREATS: REASON:x"]] =
      .ok ⟨mkRat 3 2, [], "x"⟩ ∧
    (buildResponse ⟨mkRat 3 2, [], "x"⟩ (applyConfig none)
      "Gemini-1.5-Flash").confidence = 3 / 2 ∧
    ¬((buildResponse ⟨mkRat 3 2, [], "x"⟩ (applyConfig none)
      "Gemini-1.5-Flash").confidence ≤ 1) := by
  refine ⟨by decide, ?_, by decide⟩
  show (mkRat 3 2 : ℚ) = 3 / 2
  exact mkRat_three_halves

/-- **C6, amended.**  The score the normalizer extracts from a generative
reply is always nonnegative (the score regex only matches unsigned
numerals, and the defaults are 0.3), but it is not clamped above: a reply
whose `SCORE:` field exceeds 1 yields a confidence above 1, so the
confidence lies in [0, 1] only when the provider-reported score does. -/
theorem parse_score_nonneg (s : String) : 0 ≤ (parseAnalysis s).score := by
  show (0 : ℚ) ≤
    (match findScoreTok s.toList with
      | some tok =>
          match parseGoFloat tok with
          | some v => v
          | none => mkRat 3 10
      | none => mkRat 3 10 : ℚ)
  rcases hf : findScoreTok s.toList with _ | tok
  · decide
  · show (0 : ℚ) ≤
      (match parseGoFloat tok with
        | some v => v
        | none => mkRat 3 10 : ℚ)
    rcases hp : parseGoFloat tok with _ | v
    · decide
    · exact parseGoFloat_nonneg tok v hp

/-! ## C8: the running best verdict -/

theorem detectTexts_all_low (ep : List (Except String String))
    (hlow : ∀ a : String, Except.ok a ∈ ep →
      (parseAnalysis a).score < mkRat 1 2) :
    ∀ (w : Bool) (le : Option String), ∃ w' le',
      detectTexts initialBest w le ep = .done initialBest w' le' ∧
      (w = true → w' = true) ∧
      ((∃ a : String, Except.ok a ∈ ep) → w' = true) := by
  induction ep with
  | nil =>
      intro w le
      refine ⟨w, le, rfl, fun h => h, ?_⟩
      rintro ⟨a, ha⟩
      simp at ha
  | cons c rest ih =>
      intro w le
      cases c with
      | error e =>
          obtain ⟨w', le', heq, hw, hex⟩ :=
            ih (fun a ha => hlow a (List.mem_cons_of_mem _ ha)) w (some e)
          refine ⟨w', le', heq, hw, ?_⟩
          rintro ⟨a, ha⟩
          rcases List.mem_cons.mp ha with h | h
          · exact Except.noConfusion h
          · exact hex ⟨a, h⟩
      | ok a =>
          have hla : (parseAnalysis a).score < mkRat 1 2 :=
            hlow a (List.mem_cons_self _ _)
          have hbest : ¬ (initialBest.score < (parseAnalysis a).score) :=
            not_lt.mpr (le_of_lt hla)
          have hearly : ¬ (mkRat 4 5 ≤ (parseAnalysis a).score) := by
            intro hcon
            exact absurd (lt_of_le_of_lt hcon hla) (by decide)
          obtain ⟨w', le', heq, hw, hex⟩ :=
            ih (fun a ha => hlow a (List.mem_cons_of_mem _ ha)) true le
          refine ⟨w', le', ?_, fun _ => hw rfl, fun _ => hw rfl⟩
          simp only [detectTexts]
          rw [if_neg hbest, if_neg hearly]
          exact heq

theorem detectEndpoints_all_low
    (outs : List (List (Except String String)))
    (hlow : ∀ ep ∈ outs, ∀ a : String, Except.ok a ∈ ep →
      (parseAnalysis a).score < mkRat 1 2) :
    ∀ (n : ℕ) (le : Option String), ∃ n' le',
      detectEndpoints initialBest n le outs =
        .finished initialBest n' le' ∧
      n ≤ n' ∧
      ((∃ ep ∈ outs, ∃ a : String, Except.ok a ∈ ep) → n < n') := by
  induction outs with
  | nil =>
      intro n le
      refine ⟨n, le, rfl, le_rfl, ?_⟩
      rintro ⟨ep, hep, -⟩
      simp at hep
  | cons ep rest ih =>
      intro n le
      obtain ⟨w', le', heq, -, hex⟩ :=
        detectTexts_all_low ep (hlow ep (List.mem_cons_self _ _)) false le
      obtain ⟨n', le'', heq2, hn, hex2⟩ :=
        ih (fun e he a ha => hlow e (List.mem_cons_of_mem _ he) a ha)
          (if w' then n + 1 else n) le'
      refine ⟨n', le'', ?_, ?_, ?_⟩
      · simp only [detectEndpoints]
        rw [heq]
        exact heq2
      · exact le_trans (by split <;> omega) hn
      · rintro ⟨e, he, a, ha⟩
        rcases List.mem_cons.mp he with h | h
        · subst h
          have hw' : w' = true := hex ⟨a, ha⟩
          rw [hw', if_pos rfl] at hn
          omega
        · have := hex2 ⟨e, h, a, ha⟩
          have hstep : n ≤ (if w' then n + 1 else n) := by split <;> omega
          omega

/-- **C8.**  The running best verdict starts at score 0.5 with no threats;
a normalized score ≥ 0.8 from the very first call makes the run return
immediately — with that call's parse, independently of every remaining
call — and in every run where at least one endpoint call succeeds and
every normalized score is below 0.5, the run returns exactly the initial
best: score 0.5 and an empty threat list. -/
theorem detect_early_exit_and_floor :
    (∀ (a : String) (rest : List (Except String String))
        (outs : List (List (Except String String))),
      4 / 5 ≤ (parseAnalysis a).score →
      Detect ((Except.ok a :: rest) :: outs) =
        .ok ⟨(parseAnalysis a).score, (parseAnalysis a).threatTypes,
          (parseAnalysis a).reason⟩) ∧
    (∀ outs : List (List (Except String String)),
      (∃ ep ∈ outs, ∃ a : String, Except.ok a ∈ ep) →
      (∀ ep ∈ outs, ∀ a : String, Except.ok a ∈ ep →
        (parseAnalysis a).score < 1 / 2) →
      Detect outs = .ok ⟨1 / 2, [], "Analyzing with LLM..."⟩) := by
  constructor
  · intro a rest outs hsc
    have hsc' : mkRat 4 5 ≤ (parseAnalysis a).score := by
      rw [mkRat_four_fifths]
      exact hsc
    have hbest : initialBest.score < (parseAnalysis a).score :=
      lt_of_lt_of_le (show initialBest.score < mkRat 4 5 by decide) hsc'
    have htexts : detectTexts initialBest false none (Except.ok a :: rest) =
        .early ⟨(parseAnalysis a).score, (parseAnalysis a).threatTypes,
          (parseAnalysis a).reason⟩ := by
      simp only [detectTexts]
      rw [if_pos hbest, if_pos hsc']
    unfold Detect
    have hend : detectEndpoints initialBest 0 none
        ((Except.ok a :: rest) :: outs) =
        .early ⟨(parseAnalysis a).score, (parseAnalysis a).threatTypes,
          (parseAnalysis a).reason⟩ := by
      simp only [detectEndpoints]
      rw [htexts]
    rw [hend]
  · intro outs hex hlow
    have hlow' : ∀ ep ∈ outs, ∀ a : String, Except.ok a ∈ ep →
        (parseAnalysis a).score < mkRat 1 2 := by
      intro ep hep a ha
      rw [mkRat_half]
      exact hlow ep hep a ha
    obtain ⟨n', le', heq, -, hlt⟩ := detectEndpoints_all_low outs hlow' 0 none
    have h0 : 0 < n' := hlt hex
    unfold Detect
    rw [heq]
    dsimp only [initialBest]
    rw [if_pos h0, mkRat_half]

set_option maxRecDepth 8000 in
/-- Witness for C8: the early-exit part on a reply scoring 0.95, the floor
part on a run whose only reply scores 0.2. -/
theorem detect_early_exit_and_floor_witness :
    Detect [[Except.ok "SCORE:0.95 THREATS:jailbreak REASON:bad"]] =
      .ok ⟨(parseAnalysis "SCORE:0.95 THREATS:jailbreak REASON:bad").score,
        (parseAnalysis "SCORE:0.95 THREATS:jailbreak REASON:bad").threatTypes,
        (parseAnalysis "SCORE:0.95 THREATS:jailbreak REASON:bad").reason⟩ ∧
    Detect [[Except.ok "SCORE:0.2 THREATS: REASON:benign"]] =
      .ok ⟨1 / 2, [], "Analyzing with LLM..."⟩ :=
  ⟨detect_early_exit_and_floor.1 "SCORE:0.95 THREATS:jailbreak REASON:bad"
      [] []
      (by rw [show (parseAnalysis
          "SCORE:0.95 THREATS:jailbreak REASON:bad").score = mkRat 19 20
          from by decide, Rat.mkRat_eq_div]; norm_num),
    detect_early_exit_and_floor.2 [[Except.ok "SCORE:0.2 THREATS: REASON:benign"]]
      ⟨_, List.mem_cons_self _ _, "SCORE:0.2 THREATS: REASON:benign",
        List.mem_cons_self _ _⟩
      (by
        intro ep hep a ha
        rcases List.mem_cons.mp hep with h | h
        · subst h
          rcases List.mem_cons.mp ha with h2 | h2
          · have ha2 : a = "SCORE:0.2 THREATS: REASON:benign" :=
              Except.ok.inj h2
            subst ha2
            rw [show (parseAnalysis
              "SCORE:0.2 THREATS: REASON:benign").score = mkRat 1 5
              from by decide, Rat.mkRat_eq_div]
            norm_num
          · simp at h2
        · simp at h)⟩

/-! ## C9: parse-miss defaults -/

set_option maxRecDepth 16000 in
/-- **C9.**  A generative reply in which none of the three patterns match
parses to the defaults (score 0.3, no threats, the canned reason); a
threat token outside the six-entry table is silently dropped while known
tokens are mapped; and a call whose reply is arbitrary (parseable or not)
still makes `Detect` return without error, so the breaker records a
success. -/
theorem parse_miss_defaults :
    (∀ s : String, findScoreTok s.toList = none →
      suffixAfterFirst "THREATS:".toList s.toList = none →
      reasonMatch s.toList = none →
      parseAnalysis s = ⟨3 / 10, [], "Unable to parse LLM response"⟩) ∧
    ((parseAnalysis "SCORE:0.9 THREATS:foo,jailbreak,bar REASON:x").score =
        9 / 10 ∧
      (parseAnalysis
        "SCORE:0.9 THREATS:foo,jailbreak,bar REASON:x").threatTypes =
        [.jailbreak] ∧
      (parseAnalysis "SCORE:0.9 THREATS:foo,jailbreak,bar REASON:x").reason =
        "x") ∧
    (∀ a : String, (Detect [[Except.ok a]]).isOk = true) := by
  refine ⟨?_, ⟨?_, by decide, by decide⟩, ?_⟩
  · intro s h1 h2 h3
    simp only [parseAnalysis, h1, h2, h3, mkRat_three_tenths]
  · rw [show (parseAnalysis
      "SCORE:0.9 THREATS:foo,jailbreak,bar REASON:x").score = mkRat 9 10
      from by decide, Rat.mkRat_eq_div]
    norm_num
  · intro a
    by_cases hc : mkRat 4 5 ≤ (parseAnalysis a).score
    · simp only [Detect, detectEndpoints, detectTexts]
      rw [if_pos hc]
      rfl
    · simp only [Detect, detectEndpoints, detectTexts]
      rw [if_neg hc]
      rfl

/-- Witness for C9: the reply `"hello"` matches none of the patterns. -/
theorem parse_miss_defaults_witness :
    parseAnalysis "hello" = ⟨3 / 10, [], "Unable to parse LLM response"⟩ :=
  parse_miss_defaults.1 "hello" (by decide) (by decide) (by decide)

/-! ## C10: ROT13 -/

/-- **C10, counterexample.**  On the two-byte UTF-8 input `"é"`
(`[0xC3, 0xA9]`), `rot13` writes the rune at its byte offset into a rune
slice of byte length, leaving a NUL rune in the gap: the result is
`"é\x00"` (`[0xC3, 0xA9, 0x00]`), so the character count is not preserved
and applying the transformation twice does not return the original
string. -/
theorem rot13_multibyte_inserts_nul :
    rot13 [195, 169] = [195, 169, 0] ∧
    (rot13 [195, 169]).length ≠ [195, 169].length ∧
    rot13 (rot13 [195, 169]) ≠ [195, 169] := by
  exact ⟨by decide, by decide, by decide⟩

theorem rot13Rune_ascii :
    ∀ b : ℕ, b < 128 → rot13Rune b < 128 ∧ rot13Rune (rot13Rune b) = b := by
  decide

theorem rot13RunesGo_ascii (fuel : ℕ) :
    ∀ l : List ℕ, l.length ≤ fuel → (∀ b ∈ l, b < 128) →
      rot13RunesGo fuel l = l.map rot13Rune := by
  induction fuel with
  | zero =>
      intro l hf _
      have : l = [] := List.eq_nil_of_length_eq_zero (by omega)
      subst this
      rfl
  | succ f ih =>
      intro l hf h
      cases l with
      | nil => rfl
      | cons b rest =>
          have hb : b < 128 := h b (List.mem_cons_self _ _)
          have hdec : decodeUtf8 b rest = (b, 0) := by
            unfold decodeUtf8
            rw [if_pos hb]
          simp only [rot13RunesGo, hdec, List.replicate, List.drop_zero,
            List.nil_append, List.cons_append, List.map_cons]
          rw [ih rest (by simp only [List.length_cons] at hf; omega)
            (fun x hx => h x (List.mem_cons_of_mem _ hx))]

theorem flatten_encode_ascii (l : List ℕ) (h : ∀ b ∈ l, b < 128) :
    ((l.map utf8Encode).flatten) = l := by
  induction l with
  | nil => rfl
  | cons b rest ih =>
      have hb : b < 128 := h b (List.mem_cons_self _ _)
      have he : utf8Encode b = [b] := by
        unfold utf8Encode
        rw [if_pos hb]
      simp only [List.map_cons, List.flatten_cons, he]
      rw [ih (fun x hx => h x (List.mem_cons_of_mem _ hx))]
      rfl

/-- **C10, amended.**  On ASCII input (every byte below 0x80) `rot13`
rotates each ASCII letter by 13 positions, leaves every other character
unchanged, preserves the character count, and is an involution.  On input
containing multi-byte UTF-8 characters it inserts one NUL rune per
continuation byte (a byte-offset-vs-rune-index bug), so neither length
preservation nor the involution holds in general. -/
theorem rot13_ascii_involution (bytes : List ℕ)
    (h : ∀ b ∈ bytes, b < 128) :
    rot13 bytes = bytes.map rot13Rune ∧
    (rot13 bytes).length = bytes.length ∧
    rot13 (rot13 bytes) = bytes := by
  have hmap : ∀ l : List ℕ, (∀ b ∈ l, b < 128) →
      rot13 l = l.map rot13Rune := by
    intro l hl
    unfold rot13 rot13Runes
    rw [rot13RunesGo_ascii l.length l le_rfl hl]
    exact flatten_encode_ascii (l.map rot13Rune) (by
      intro x hx
      obtain ⟨b, hb, hxb⟩ := List.mem_map.mp hx
      exact hxb ▸ (rot13Rune_ascii b (hl b hb)).1)
  have h1 := hmap bytes h
  refine ⟨h1, ?_, ?_⟩
  · rw [h1, List.length_map]
  · rw [h1, hmap (bytes.map rot13Rune) (by
      intro x hx
      obtain ⟨b, hb, hxb⟩ := List.mem_map.mp hx
      exact hxb ▸ (rot13Rune_ascii b (h b hb)).1),
      List.map_map]
    have : ∀ b ∈ bytes, (rot13Rune ∘ rot13Rune) b = b :=
      fun b hb => (rot13Rune_ascii b (h b hb)).2
    rw [List.map_congr_left this]
    simp

/-- Witness for C10 (amended): `"Uryyb"` decodes to `"Hello"` and back. -/
theorem rot13_ascii_involution_witness :
    rot13 [85, 114, 121, 121, 98] = [72, 101, 108, 108, 111] ∧
    rot13 (rot13 [85, 114, 121, 121, 98]) = [85, 114, 121, 121, 98] := by
  have h := rot13_ascii_involution [85, 114, 121, 121, 98] (by decide)
  exact ⟨by rw [h.1]; decide, h.2.2⟩

end PromptShield
